import Mathlib

/-!
Shallow embedding of `src/advanced-vector/vector.h`: a growable contiguous
container (`Vector<T>`) built on raw storage (`RawMemory<T>`).

Modelling choices, all read off the C++ source:

* A container state is the list of its constructed slots `[0, size)`
  together with the capacity of its raw buffer; `size` is the list length.
* C++ move semantics on elements is observable (the spec speaks of
  move-counting / copy-counting test doubles), so a slot is either
  `Elem.live a` (holds the value `a`) or `Elem.moved` (was moved from;
  its value is unspecified).  Move construction / move assignment from a
  slot transfers its status to the destination and leaves the source
  `moved`; copy construction / copy assignment leaves the source intact.
* The relocation policy `std::is_nothrow_move_constructible_v<T> ||
  !std::is_copy_constructible_v<T>` is modelled by two booleans `nm`
  (nothrow-move-constructible) and `cc` (copy-constructible); relocation
  additionally returns the list of per-element transfer kinds actually
  performed, so the move-vs-copy policy is observable.
* `std::move_backward` / `std::move` element-shifting loops are modelled
  one assignment at a time (`moveBackN` / `moveFwdN`), exactly mirroring
  the iterator loops; a backwards shift over an empty (or inverted)
  range performs no assignment, matching the observed library behaviour.
-/

namespace AdvVec

/-- A constructed slot of the buffer: either live with a value, or in the
moved-from (valid but unspecified) state. -/
inductive Elem (α : Type) where
  | live (a : α) : Elem α
  | moved : Elem α
deriving DecidableEq, Repr

/-- The kind of element transfer performed during a relocation. -/
inductive TransferKind where
  | moveCtor
  | copyCtor
deriving DecidableEq, Repr

/-- State of `Vector<T>`: constructed slots `[0, size_)` and the capacity of
the owned `RawMemory` buffer (`data_.Capacity()`). -/
structure Vector (α : Type) where
  elems : List (Elem α)
  cap : Nat
deriving DecidableEq, Repr

variable {α : Type}

/-- Model of `Vector::Size()`. -/
def Size (v : Vector α) : Nat := v.elems.length

/-- Model of `Vector::Capacity()`. -/
def Capacity (v : Vector α) : Nat := v.cap

/-- Model of `Vector()`: default construction, `data_{0}`, `size_ = 0`. -/
def emptyVec : Vector α := ⟨[], 0⟩

/-- Model of `Vector::operator[](index)` (precondition `index < size_`). -/
def atIdx (v : Vector α) (i : Nat) : Elem α := v.elems.getD i Elem.moved

/-- Model of `Vector(size_t size)`: allocates `size`, value-constructs `size`
elements (`d` is the value produced by value construction of `T`). -/
def mkSized (n : Nat) (d : α) : Vector α := ⟨List.replicate n (Elem.live d), n⟩

/-- Model of `Vector(const Vector&)`: allocates exactly `other.size_`, copy-constructs
each slot (copying preserves the source and reproduces each slot's status). -/
def copyConstruct (v : Vector α) : Vector α := ⟨v.elems, Size v⟩

/-- Model of `Vector(Vector&&)`: `data_ = std::move(other.data_)` (a `RawMemory` swap
against the freshly default-initialised `data_{0}`) followed by
`std::swap(size_, other.size_)` with `size_ = 0`.  Returns
(constructed vector, state of the source afterwards). -/
def moveConstruct (v : Vector α) : Vector α × Vector α :=
  (⟨v.elems, v.cap⟩, ⟨[], 0⟩)

/-- Model of `Vector::operator=(Vector&&)`: `data_ = std::move(rhs.data_)` (a
`RawMemory` swap) and `std::swap(size_, rhs.size_)` — a full state exchange.
Returns (new state of `*this`, new state of `rhs`). -/
def moveAssign (dst src : Vector α) : Vector α × Vector α :=
  (⟨src.elems, src.cap⟩, ⟨dst.elems, dst.cap⟩)

/-- Model of `Vector::operator=(const Vector&)`.  `same` models the `this != &rhs`
aliasing test.  If the incoming size exceeds the capacity: copy-and-swap;
otherwise element-wise copy-assignment over the common prefix, then either
destroy the excess or copy-construct the tail — in every branch the slot
sequence becomes `rhs`'s and the capacity is unchanged. -/
def copyAssign (dst src : Vector α) (same : Bool) : Vector α :=
  if same then dst
  else if Size src > dst.cap then ⟨src.elems, Size src⟩
  else ⟨src.elems, dst.cap⟩

/-- Model of `Vector::Swap`: swaps `data_` and `size_`. -/
def SwapV (a b : Vector α) : Vector α × Vector α :=
  (⟨b.elems, b.cap⟩, ⟨a.elems, a.cap⟩)

/-- The relocation step shared by `Reserve`, `EmplaceBack` and `Emplace`:
`if constexpr (std::is_nothrow_move_constructible_v<T> ||
!std::is_copy_constructible_v<T>) uninitialized_move_n else
uninitialized_copy_n`.  The new buffer receives each slot's status either
way (the originals are destroyed immediately afterwards by
`std::destroy_n`); the second component records which transfer constructor
ran for each slot. -/
def relocate (nm cc : Bool) (xs : List (Elem α)) : List (Elem α) × List TransferKind :=
  if nm || !cc then (xs, xs.map fun _ => TransferKind.moveCtor)
  else (xs, xs.map fun _ => TransferKind.copyCtor)

/-- Model of `Vector::Reserve(new_capacity)`.  Second component: the transfer kinds
used during relocation (empty when the early return fires). -/
def Reserve (nm cc : Bool) (v : Vector α) (newCap : Nat) : Vector α × List TransferKind :=
  if newCap ≤ v.cap then (v, [])
  else
    let r := relocate nm cc v.elems
    (⟨r.1, newCap⟩, r.2)

/-- Model of `Vector::Resize(new_size)` (`d` is the value produced by value
construction of `T`). -/
def Resize (nm cc : Bool) (v : Vector α) (newSize : Nat) (d : α) : Vector α :=
  if newSize > Size v then
    let r := (Reserve nm cc v newSize).1
    ⟨r.elems ++ List.replicate (newSize - Size v) (Elem.live d), r.cap⟩
  else if newSize < Size v then ⟨v.elems.take newSize, v.cap⟩
  else v

/-- Model of `Vector::EmplaceBack(args...)` constructing the element from value `a`.
At capacity: allocate `size_ == 0 ? 1 : size_ * 2`, construct the new
element at slot `size_` of the new buffer, relocate the old slots, destroy
the originals, swap buffers.  Otherwise construct in place at slot `size_`.
Second component: the transfer kinds used during relocation. -/
def EmplaceBack (nm cc : Bool) (v : Vector α) (a : α) : Vector α × List TransferKind :=
  if Size v = v.cap then
    let newCap := if Size v = 0 then 1 else Size v * 2
    let r := relocate nm cc v.elems
    (⟨r.1 ++ [Elem.live a], newCap⟩, r.2)
  else
    (⟨v.elems ++ [Elem.live a], v.cap⟩, [])

/-- Model of `Vector::PushBack(value)`: delegates to `EmplaceBack`. -/
def PushBack (nm cc : Bool) (v : Vector α) (a : α) : Vector α :=
  (EmplaceBack nm cc v a).1

/-- One pass of `std::move_backward(first, last, d_last)` with `first = d`
and `n = last - first` assignments, executed highest index first exactly as
the library loop does: `*(j+1) = std::move(*j)` for `j = last-1 … first`;
an empty (or inverted, hence length-0 in `Nat`) range performs none. -/
def moveBackN (b : List (Elem α)) (d : Nat) : Nat → List (Elem α)
  | 0 => b
  | n + 1 =>
    moveBackN ((b.set (d + n + 1) (b.getD (d + n) Elem.moved)).set (d + n) Elem.moved) d n

/-- One pass of `std::move(first, last, d_first)` with `d_first = d`,
`first = d + 1` and `n = last - first` assignments, lowest index first:
`*j = std::move(*(j+1))` for `j = d … d+n-1`. -/
def moveFwdN (b : List (Elem α)) (d : Nat) : Nat → List (Elem α)
  | 0 => b
  | n + 1 =>
    moveFwdN ((b.set d (b.getD (d + 1) Elem.moved)).set (d + 1) Elem.moved) (d + 1) n

/-- Model of `Vector::Erase(pos)` at offset `dist = pos - begin()`:
`Destroy(std::move(cur + 1, end(), cur)); --size_; return cur;`.
`std::move` shifts `(pos, end)` one slot left (each shifted-from slot is
left moved-from, then overwritten by the next step except the last, which
`Destroy` destroys).  Returns (new state, returned offset). -/
def Erase (v : Vector α) (dist : Nat) : Vector α × Nat :=
  let b := moveFwdN v.elems dist (Size v - (dist + 1))
  (⟨b.take (Size v - 1), v.cap⟩, dist)

/-- Model of `Vector::Emplace(pos, args...)` at offset `dist`, constructing from
value `a`.  At capacity: construct the new element at slot `dist` of the
new buffer, relocate the prefix `[0, dist)` and the suffix `[dist, size_)`
(shifted up by one), destroy the originals, swap.  With spare capacity and
`size_ != 0`: materialise `temp`, move-construct the last element into the
one-past-end slot, `std::move_backward(it, end() - 1, end())`, move-assign
`temp` into slot `dist`.  With `size_ == 0`: construct directly at `it`.
Returns (new state, returned offset). -/
def Emplace (nm cc : Bool) (v : Vector α) (dist : Nat) (a : α) : Vector α × Nat :=
  if Size v = v.cap then
    let newCap := if Size v = 0 then 1 else Size v * 2
    let pre := relocate nm cc (v.elems.take dist)
    let suf := relocate nm cc (v.elems.drop dist)
    (⟨pre.1 ++ [Elem.live a] ++ suf.1, newCap⟩, dist)
  else
    if Size v ≠ 0 then
      let b1 := (v.elems.set (Size v - 1) Elem.moved) ++ [v.elems.getD (Size v - 1) Elem.moved]
      let b2 := moveBackN b1 dist (Size v - 1 - dist)
      (⟨b2.set dist (Elem.live a), v.cap⟩, dist)
    else
      (⟨[Elem.live a], v.cap⟩, dist)

/-- The transfer kinds used by `Emplace`'s relocation (the growth branch
relocates the prefix then the suffix; the in-place branch relocates
nothing). -/
def emplaceKinds (nm cc : Bool) (v : Vector α) (dist : Nat) : List TransferKind :=
  if Size v = v.cap then
    (relocate nm cc (v.elems.take dist)).2 ++ (relocate nm cc (v.elems.drop dist)).2
  else []

/-- Model of `Vector::Insert(pos, value)`: delegates to `Emplace`. -/
def Insert (nm cc : Bool) (v : Vector α) (dist : Nat) (a : α) : Vector α × Nat :=
  Emplace nm cc v dist a

/-- Model of `Vector::PopBack()`: `--size_; (data_ + size_)->~T();`. -/
def PopBack (v : Vector α) : Vector α := ⟨v.elems.take (Size v - 1), v.cap⟩

/-- Folding `PushBack` over a list of values. -/
def pushAll (nm cc : Bool) (v : Vector α) (xs : List α) : Vector α :=
  xs.foldl (fun w a => PushBack nm cc w a) v

/-- The container invariant: the number of constructed slots never exceeds
the buffer capacity. -/
def Inv (v : Vector α) : Prop := Size v ≤ v.cap

end AdvVec

namespace AdvVec

variable {α : Type}

/-! ### Helper lemmas -/

theorem relocate_fst (nm cc : Bool) (xs : List (Elem α)) : (relocate nm cc xs).1 = xs := by
  unfold relocate; split <;> rfl

theorem relocate_snd (nm cc : Bool) (xs : List (Elem α)) :
    (relocate nm cc xs).2 =
      List.replicate xs.length
        (if nm || !cc then TransferKind.moveCtor else TransferKind.copyCtor) := by
  unfold relocate; split <;> simp [List.map_const']

theorem pushBack_elems (nm cc : Bool) (v : Vector α) (a : α) :
    (PushBack nm cc v a).elems = v.elems ++ [Elem.live a] := by
  unfold PushBack EmplaceBack
  split
  · simp [relocate_fst]
  · rfl

theorem pushAll_elems (nm cc : Bool) (v : Vector α) (xs : List α) :
    (pushAll nm cc v xs).elems = v.elems ++ xs.map Elem.live := by
  induction xs generalizing v with
  | nil => simp [pushAll]
  | cons x xs ih =>
    show (pushAll nm cc (PushBack nm cc v x) xs).elems = _
    rw [ih, pushBack_elems]
    simp

/-! ### Claims -/

/-- Claim C1: for every sequence of `N` values pushed via `PushBack` onto a
default-constructed container, afterwards `Size()` equals `N` and for every
`i < N`, `operator[](i)` holds the `i`-th pushed value. -/
theorem C1_pushback_sequence (nm cc : Bool) (xs : List α) (i : Nat) (h : i < xs.length) :
    Size (pushAll nm cc emptyVec xs) = xs.length ∧
    atIdx (pushAll nm cc emptyVec xs) i = Elem.live xs[i] := by
  have he : (pushAll nm cc (emptyVec : Vector α) xs).elems = xs.map Elem.live := by
    rw [pushAll_elems]; rfl
  constructor
  · show (pushAll nm cc (emptyVec : Vector α) xs).elems.length = xs.length
    rw [he, List.length_map]
  · show (pushAll nm cc (emptyVec : Vector α) xs).elems.getD i Elem.moved = Elem.live xs[i]
    rw [he, List.getD_eq_getElem _ _ (by simpa using h), List.getElem_map]

/-- Claim C1 witness: pushing `[1, 2, 3]` yields size `3` and element `1` equal
to `2`. -/
theorem C1_pushback_sequence_witness :
    Size (pushAll true true (emptyVec : Vector Nat) [1, 2, 3]) = 3 ∧
    atIdx (pushAll true true (emptyVec : Vector Nat) [1, 2, 3]) 1 = Elem.live 2 :=
  C1_pushback_sequence true true [1, 2, 3] 1 (by decide)

/-- Claim C2 counterexample: the claim says the source of a move assignment has
`Size() == 0` afterwards; but move assignment swaps states, so moving
`[1]` into a vector holding `[2, 3]` leaves the source with size `2`. -/
theorem C2_move_assign_counterexample :
    ¬ (Size (moveAssign (⟨[Elem.live 2, Elem.live 3], 2⟩ : Vector Nat)
        ⟨[Elem.live 1], 1⟩).2 = 0) := by
  decide

/-- Claim C2 (amended): after move construction the source is empty and the
destination holds exactly the source's prior size and elements; move
assignment exchanges the two states, so the destination receives the
source's prior size and elements while the source receives the
destination's prior size and elements (hence ends empty only when the
destination was empty). -/
theorem C2_move_semantics (v dst : Vector α) :
    (moveConstruct v).1.elems = v.elems ∧
    Size (moveConstruct v).1 = Size v ∧
    Size (moveConstruct v).2 = 0 ∧
    (moveAssign dst v).1.elems = v.elems ∧
    Size (moveAssign dst v).1 = Size v ∧
    (moveAssign dst v).2.elems = dst.elems ∧
    Size (moveAssign dst v).2 = Size dst := by
  refine ⟨rfl, rfl, rfl, rfl, rfl, rfl, rfl⟩

/-- Claim C5: `Reserve(k)` with `k ≤ Capacity()` changes nothing; with
`k > Capacity()` it sets the capacity to exactly `k` while preserving the
size and the whole element sequence. -/
theorem C5_reserve_spec (nm cc : Bool) (v : Vector α) (k : Nat) :
    (k ≤ Capacity v → (Reserve nm cc v k).1 = v) ∧
    (Capacity v < k →
      Capacity (Reserve nm cc v k).1 = k ∧
      Size (Reserve nm cc v k).1 = Size v ∧
      (Reserve nm cc v k).1.elems = v.elems) := by
  constructor
  · intro h
    have h' : k ≤ v.cap := h
    unfold Reserve
    rw [if_pos h']
  · intro h
    have h' : v.cap < k := h
    unfold Reserve
    rw [if_neg (by omega)]
    exact ⟨rfl, by simp [Size, relocate_fst], by simp [relocate_fst]⟩

/-- Claim C5 witness: on `⟨[1], 2⟩`, `Reserve 2` is a no-op and `Reserve 5`
yields capacity `5` with the element intact. -/
theorem C5_reserve_spec_witness :
    (Reserve true true (⟨[Elem.live 1], 2⟩ : Vector Nat) 2).1 = ⟨[Elem.live 1], 2⟩ ∧
    Capacity (Reserve true true (⟨[Elem.live 1], 2⟩ : Vector Nat) 5).1 = 5 ∧
    (Reserve true true (⟨[Elem.live 1], 2⟩ : Vector Nat) 5).1.elems = [Elem.live 1] :=
  ⟨(C5_reserve_spec true true ⟨[Elem.live 1], 2⟩ 2).1 (by decide),
   ((C5_reserve_spec true true ⟨[Elem.live 1], 2⟩ 5).2 (by decide)).1,
   ((C5_reserve_spec true true ⟨[Elem.live 1], 2⟩ 5).2 (by decide)).2.2⟩

/-- Claim C10: copy self-assignment (`v = v`, the `this != &rhs` test firing) is
a no-op: size, capacity and element sequence are exactly unchanged. -/
theorem C10_self_assign (v : Vector α) : copyAssign v v true = v := rfl

end AdvVec

namespace AdvVec

variable {α : Type}

/-- Claim C3 is false on the code: on a vector `[1, 2]` with spare capacity
(capacity `4`), `Emplace` at offset `2` (= `end()`) of the value `9`
move-constructs the old last element into the one-past-end slot and then
overwrites that same slot with the new value, leaving slot `1` moved-from:
the result is `[1, moved, 9]`, while `EmplaceBack 9` yields `[1, 2, 9]`.
(The returned offset, `2`, and the sizes agree; the element sequences do
not.) -/
theorem C3_end_emplace_divergence :
    (Emplace true true (⟨[Elem.live 1, Elem.live 2], 4⟩ : Vector Nat) 2 9).1.elems
        = [Elem.live 1, Elem.moved, Elem.live 9] ∧
    (EmplaceBack true true (⟨[Elem.live 1, Elem.live 2], 4⟩ : Vector Nat) 9).1.elems
        = [Elem.live 1, Elem.live 2, Elem.live 9] ∧
    (Emplace true true (⟨[Elem.live 1, Elem.live 2], 4⟩ : Vector Nat) 2 9).1.elems
        ≠ (EmplaceBack true true (⟨[Elem.live 1, Elem.live 2], 4⟩ : Vector Nat) 9).1.elems := by
  decide

/-- Claim C8 is false on the code at insertion position `end()` with spare
capacity: on `[1, 2]` with capacity `4`, `Insert` at offset `2` of the
value `9` followed by `Erase` at the returned offset yields `[1, moved]`,
not the original `[1, 2]` (the size is restored, the element sequence is
not). -/
theorem C8_roundtrip_divergence :
    (Erase (Insert true true (⟨[Elem.live 1, Elem.live 2], 4⟩ : Vector Nat) 2 9).1
        (Insert true true (⟨[Elem.live 1, Elem.live 2], 4⟩ : Vector Nat) 2 9).2).1.elems
      = [Elem.live 1, Elem.moved] ∧
    (Erase (Insert true true (⟨[Elem.live 1, Elem.live 2], 4⟩ : Vector Nat) 2 9).1
        (Insert true true (⟨[Elem.live 1, Elem.live 2], 4⟩ : Vector Nat) 2 9).2).1.elems
      ≠ [Elem.live 1, Elem.live 2] := by
  decide

/-- Claim C4: whenever a relocation happens (`Reserve` past the capacity, growth
in `EmplaceBack` or `Emplace`), every element is transferred by move
construction when `T` is nothrow-move-constructible or not
copy-constructible, and every element is transferred by copy construction
otherwise; in particular, for a non-empty relocation, the transfers are
exclusively moves exactly when that condition holds. -/
theorem C4_relocation_policy (nm cc : Bool) (v : Vector α) (k : Nat) (a : α) (d : Nat)
    (hk : Capacity v < k) (hfull : Size v = Capacity v) (hd : d ≤ Size v) :
    ((Reserve nm cc v k).2 = List.replicate (Size v)
        (if nm || !cc then TransferKind.moveCtor else TransferKind.copyCtor)) ∧
    ((EmplaceBack nm cc v a).2 = List.replicate (Size v)
        (if nm || !cc then TransferKind.moveCtor else TransferKind.copyCtor)) ∧
    (emplaceKinds nm cc v d = List.replicate (Size v)
        (if nm || !cc then TransferKind.moveCtor else TransferKind.copyCtor)) ∧
    (0 < Size v →
      (((Reserve nm cc v k).2.all fun t => t = TransferKind.moveCtor) = true ↔
        (nm || !cc) = true) ∧
      (((Reserve nm cc v k).2.all fun t => t = TransferKind.copyCtor) = true ↔
        (nm || !cc) = false)) := by
  have hk' : v.cap < k := hk
  have hfull' : Size v = v.cap := hfull
  have hres : (Reserve nm cc v k).2 = List.replicate (Size v)
      (if nm || !cc then TransferKind.moveCtor else TransferKind.copyCtor) := by
    unfold Reserve
    rw [if_neg (by omega)]
    exact relocate_snd nm cc v.elems
  refine ⟨hres, ?_, ?_, ?_⟩
  · unfold EmplaceBack
    rw [if_pos hfull']
    exact relocate_snd nm cc v.elems
  · unfold emplaceKinds
    rw [if_pos hfull', relocate_snd, relocate_snd]
    rw [List.length_take_of_le hd, List.length_drop]
    rw [← List.replicate_add]
    have hd' : d ≤ v.elems.length := hd
    unfold Size
    congr 1
    omega
  · intro hpos
    rw [hres]
    cases hmc : (nm || !cc) <;>
      simp [List.all_eq_true, List.eq_replicate_iff, Nat.pos_iff_ne_zero.mp hpos,
        (by omega : Size v ≠ 0)]

/-- Claim C4 witness: on `[1, 2]` at full capacity `2`, with a throwing move
constructor and a copy constructor available (`nm = false`, `cc = true`),
`Reserve 3`, `EmplaceBack` and `Emplace` all relocate exclusively by copy
construction. -/
theorem C4_relocation_policy_witness :
    (Reserve false true (⟨[Elem.live 1, Elem.live 2], 2⟩ : Vector Nat) 3).2
        = [TransferKind.copyCtor, TransferKind.copyCtor] ∧
    (EmplaceBack false true (⟨[Elem.live 1, Elem.live 2], 2⟩ : Vector Nat) 9).2
        = [TransferKind.copyCtor, TransferKind.copyCtor] ∧
    emplaceKinds false true (⟨[Elem.live 1, Elem.live 2], 2⟩ : Vector Nat) 1
        = [TransferKind.copyCtor, TransferKind.copyCtor] := by
  have h := C4_relocation_policy false true
      (⟨[Elem.live 1, Elem.live 2], 2⟩ : Vector Nat) 3 9 1
      (by decide) (by decide) (by decide)
  exact ⟨by rw [h.1]; decide, by rw [h.2.1]; decide, by rw [h.2.2.1]; decide⟩

/-- Claim C6: at full capacity, `PushBack`/`EmplaceBack`/`Emplace` grow the
capacity to exactly `1` when the old capacity was `0` and to exactly twice
the old capacity otherwise; with spare capacity, `PushBack`/`EmplaceBack`
construct the new element directly in the next free slot and leave the
capacity unchanged. -/
theorem C6_growth_policy (nm cc : Bool) (v : Vector α) (a : α) (d : Nat) :
    (Size v = Capacity v →
      Capacity (PushBack nm cc v a) = (if Capacity v = 0 then 1 else Capacity v * 2) ∧
      Capacity (EmplaceBack nm cc v a).1 = (if Capacity v = 0 then 1 else Capacity v * 2) ∧
      Capacity (Emplace nm cc v d a).1 = (if Capacity v = 0 then 1 else Capacity v * 2)) ∧
    (Size v < Capacity v →
      (EmplaceBack nm cc v a).1.elems = v.elems ++ [Elem.live a] ∧
      (PushBack nm cc v a).elems = v.elems ++ [Elem.live a] ∧
      Capacity (EmplaceBack nm cc v a).1 = Capacity v ∧
      Capacity (PushBack nm cc v a) = Capacity v) := by
  constructor
  · intro h
    have h' : Size v = v.cap := h
    have hcap : (if Size v = 0 then 1 else Size v * 2)
        = (if Capacity v = 0 then 1 else Capacity v * 2) := by
      rw [h']; rfl
    have hEB : Capacity (EmplaceBack nm cc v a).1
        = (if Capacity v = 0 then 1 else Capacity v * 2) := by
      unfold EmplaceBack
      rw [if_pos h']
      exact hcap
    refine ⟨hEB, hEB, ?_⟩
    unfold Emplace
    rw [if_pos h']
    exact hcap
  · intro h
    have h' : ¬ (Size v = v.cap) := by
      have : Size v < v.cap := h
      omega
    have hEB : (EmplaceBack nm cc v a).1 = ⟨v.elems ++ [Elem.live a], v.cap⟩ := by
      unfold EmplaceBack
      rw [if_neg h']
    refine ⟨by rw [hEB], by rw [PushBack, hEB], by rw [hEB]; rfl, by rw [PushBack, hEB]; rfl⟩

/-- Claim C6 witness: on `[1]` at full capacity `1`, pushing grows the capacity
to `2`; on `[1]` with capacity `3`, pushing appends in place and keeps
capacity `3`. -/
theorem C6_growth_policy_witness :
    Capacity (PushBack true true (⟨[Elem.live 1], 1⟩ : Vector Nat) 9) = 2 ∧
    Capacity (Emplace true true (⟨[Elem.live 1], 1⟩ : Vector Nat) 0 9).1 = 2 ∧
    (EmplaceBack true true (⟨[Elem.live 1], 3⟩ : Vector Nat) 9).1.elems
        = [Elem.live 1, Elem.live 9] ∧
    Capacity (PushBack true true (⟨[Elem.live 1], 3⟩ : Vector Nat) 9) = 3 := by
  have h1 := (C6_growth_policy true true (⟨[Elem.live 1], 1⟩ : Vector Nat) 9 0).1 (by decide)
  have h2 := (C6_growth_policy true true (⟨[Elem.live 1], 3⟩ : Vector Nat) 9 0).2 (by decide)
  exact ⟨by rw [h1.1]; decide, by rw [h1.2.2]; decide, by rw [h2.1]; decide,
    by rw [h2.2.2.2]; decide⟩

end AdvVec

namespace AdvVec

variable {α : Type}

theorem getD_at_len {β : Type} (t : List β) (u : β) (r : List β) (d0 : β) :
    (t ++ u :: r).getD t.length d0 = u := by
  induction t with
  | nil => rfl
  | cons y ys ih => simp only [List.cons_append, List.length_cons, List.getD_cons_succ, ih]

theorem set_at_len {β : Type} (t : List β) (u : β) (r : List β) (x : β) :
    (t ++ u :: r).set t.length x = t ++ x :: r := by
  induction t with
  | nil => rfl
  | cons y ys ih => simp only [List.cons_append, List.length_cons, List.set_cons_succ, ih]

/-- The single left-shift pass of `Erase`, on a decomposed buffer: shifting
`r` one slot left over the slot holding `u` and then dropping the final
slot yields `t ++ r`. -/
theorem moveFwdN_take_spec (t : List (Elem α)) (u : Elem α) (r : List (Elem α)) :
    (moveFwdN (t ++ u :: r) t.length r.length).take (t.length + r.length) = t ++ r := by
  induction r generalizing t u with
  | nil =>
    show (t ++ [u]).take (t.length + 0) = t ++ []
    rw [Nat.add_zero, List.append_nil, List.take_left]
  | cons w r2 ih =>
    show (moveFwdN (t ++ u :: w :: r2) t.length (r2.length + 1)).take
        (t.length + (w :: r2).length) = t ++ w :: r2
    rw [moveFwdN]
    have hget : (t ++ u :: w :: r2).getD (t.length + 1) Elem.moved = w := by
      have h0 := getD_at_len (t ++ [u]) w r2 Elem.moved
      simp only [List.length_append, List.length_cons, List.length_nil, Nat.zero_add,
        List.append_assoc, List.cons_append, List.nil_append] at h0
      exact h0
    have hset1 : (t ++ u :: w :: r2).set t.length w = t ++ w :: w :: r2 :=
      set_at_len t u (w :: r2) w
    have hset2 : (t ++ w :: w :: r2).set (t.length + 1) Elem.moved
        = (t ++ [w]) ++ Elem.moved :: r2 := by
      have h0 := set_at_len (t ++ [w]) w r2 Elem.moved
      simp only [List.length_append, List.length_cons, List.length_nil, Nat.zero_add,
        List.append_assoc, List.cons_append, List.nil_append] at h0
      simp only [List.append_assoc, List.cons_append, List.nil_append]
      exact h0
    rw [hget, hset1, hset2]
    have hlen : t.length + 1 = (t ++ [w]).length := by simp
    rw [hlen]
    have := ih (t ++ [w]) Elem.moved
    have hlen2 : (t ++ [w]).length + r2.length = t.length + (w :: r2).length := by
      simp; omega
    rw [hlen2] at this
    rw [this]
    simp

/-- Claim C7: for every valid offset `d < Size()`, `Erase` removes the element at
`d` by shifting the suffix one slot left and destroying the vacated last
slot: the resulting sequence is `take d ++ drop (d+1)` of the original (so
the element that followed the erased one, when there is one, now resides at
the returned offset), the size drops by one, and the returned offset is `d`
(which equals the new size, i.e. `end()`, when the last element was
erased). -/
theorem C7_erase_spec (v : Vector α) (d : Nat) (h : d < Size v) :
    (Erase v d).1.elems = v.elems.take d ++ v.elems.drop (d + 1) ∧
    Size (Erase v d).1 = Size v - 1 ∧
    (Erase v d).2 = d ∧
    (d + 1 < Size v → atIdx (Erase v d).1 d = v.elems.getD (d + 1) Elem.moved) ∧
    (d + 1 = Size v → (Erase v d).2 = Size (Erase v d).1) := by
  have h' : d < v.elems.length := h
  have hdec : v.elems = v.elems.take d ++ v.elems[d] :: v.elems.drop (d + 1) := by
    conv_lhs => rw [← List.take_append_drop d v.elems]
    rw [List.drop_eq_getElem_cons h']
  have htl : (v.elems.take d).length = d := List.length_take_of_le (by omega)
  have hrl : (v.elems.drop (d + 1)).length = v.elems.length - (d + 1) := List.length_drop ..
  have hmain : (moveFwdN v.elems d (Size v - (d + 1))).take (Size v - 1)
      = v.elems.take d ++ v.elems.drop (d + 1) := by
    have := moveFwdN_take_spec (v.elems.take d) v.elems[d] (v.elems.drop (d + 1))
    rw [htl, hrl] at this
    rw [← hdec] at this
    have e1 : Size v - (d + 1) = v.elems.length - (d + 1) := rfl
    have e2 : Size v - 1 = d + (v.elems.length - (d + 1)) := by
      unfold Size; omega
    rw [e1, e2]
    exact this
  have he : (Erase v d).1.elems = v.elems.take d ++ v.elems.drop (d + 1) := by
    unfold Erase
    exact hmain
  refine ⟨he, ?_, rfl, ?_, ?_⟩
  · show (Erase v d).1.elems.length = Size v - 1
    rw [he]
    simp only [List.length_append, htl, hrl]
    unfold Size
    omega
  · intro hlt
    have hlt' : d + 1 < v.elems.length := hlt
    show (Erase v d).1.elems.getD d Elem.moved = v.elems.getD (d + 1) Elem.moved
    rw [he]
    have hdrop : v.elems.drop (d + 1) = v.elems[d + 1] :: v.elems.drop (d + 2) :=
      List.drop_eq_getElem_cons hlt'
    rw [hdrop]
    have := getD_at_len (v.elems.take d) v.elems[d + 1] (v.elems.drop (d + 2)) Elem.moved
    rw [htl] at this
    rw [this, List.getD_eq_getElem _ _ hlt']
  · intro hend
    show d = Size (Erase v d).1
    have hsz : Size (Erase v d).1 = Size v - 1 := by
      show (Erase v d).1.elems.length = Size v - 1
      rw [he]
      simp only [List.length_append, htl, hrl]
      unfold Size
      omega
    omega

/-- Claim C7 witness: erasing offset `1` of `[1, 2, 3]` (capacity `4`) yields
`[1, 3]`, size `2`, returned offset `1`, where the old element `3` now
resides; erasing the last offset `2` returns offset `2 = Size()`. -/
theorem C7_erase_spec_witness :
    (Erase (⟨[Elem.live 1, Elem.live 2, Elem.live 3], 4⟩ : Vector Nat) 1).1.elems
        = [Elem.live 1, Elem.live 3] ∧
    Size (Erase (⟨[Elem.live 1, Elem.live 2, Elem.live 3], 4⟩ : Vector Nat) 1).1 = 2 ∧
    atIdx (Erase (⟨[Elem.live 1, Elem.live 2, Elem.live 3], 4⟩ : Vector Nat) 1).1 1
        = Elem.live 3 ∧
    (Erase (⟨[Elem.live 1, Elem.live 2, Elem.live 3], 4⟩ : Vector Nat) 2).2
        = Size (Erase (⟨[Elem.live 1, Elem.live 2, Elem.live 3], 4⟩ : Vector Nat) 2).1 := by
  have h1 := C7_erase_spec (⟨[Elem.live 1, Elem.live 2, Elem.live 3], 4⟩ : Vector Nat) 1
      (by decide)
  have h2 := C7_erase_spec (⟨[Elem.live 1, Elem.live 2, Elem.live 3], 4⟩ : Vector Nat) 2
      (by decide)
  refine ⟨by rw [h1.1]; decide, by rw [h1.2.1]; decide, ?_, h2.2.2.2.2 (by decide)⟩
  have := h1.2.2.2.1 (by decide)
  rw [this]
  decide

end AdvVec

namespace AdvVec

variable {α : Type}

theorem moveBackN_length (b : List (Elem α)) (d n : Nat) :
    (moveBackN b d n).length = b.length := by
  induction n generalizing b with
  | zero => rfl
  | succ n ih => rw [moveBackN, ih]; simp

theorem moveFwdN_length (b : List (Elem α)) (d n : Nat) :
    (moveFwdN b d n).length = b.length := by
  induction n generalizing b d with
  | zero => rfl
  | succ n ih => rw [moveFwdN, ih]; simp

theorem reserve_inv (nm cc : Bool) (v : Vector α) (k : Nat) (hv : Inv v) :
    Inv (Reserve nm cc v k).1 := by
  unfold Reserve
  split
  · exact hv
  · show (relocate nm cc v.elems).1.length ≤ k
    rw [relocate_fst]
    have h1 : Size v ≤ v.cap := hv
    have h2 : v.elems.length ≤ v.cap := h1
    omega

theorem emplaceBack_inv (nm cc : Bool) (v : Vector α) (a : α) (hv : Inv v) :
    Inv (EmplaceBack nm cc v a).1 := by
  have h1 : v.elems.length ≤ v.cap := hv
  unfold EmplaceBack
  split
  · show ((relocate nm cc v.elems).1 ++ [Elem.live a]).length ≤ _
    rw [List.length_append, relocate_fst]
    rename_i hfull
    have h2 : v.elems.length = v.cap := hfull
    split
    · rename_i hz
      have h3 : v.elems.length = 0 := hz
      simp [h3]
    · rename_i hz
      have h3 : ¬ (v.elems.length = 0) := hz
      show v.elems.length + 1 ≤ v.elems.length * 2
      omega
  · show (v.elems ++ [Elem.live a]).length ≤ v.cap
    rw [List.length_append]
    rename_i hfull
    have h2 : ¬ (v.elems.length = v.cap) := hfull
    simp only [List.length_cons, List.length_nil]
    omega

theorem emplace_inv (nm cc : Bool) (v : Vector α) (d : Nat) (a : α) (hv : Inv v) :
    Inv (Emplace nm cc v d a).1 := by
  have h1 : v.elems.length ≤ v.cap := hv
  unfold Emplace
  split
  · rename_i hfull
    have h2 : v.elems.length = v.cap := hfull
    show ((relocate nm cc (v.elems.take d)).1 ++ [Elem.live a]
        ++ (relocate nm cc (v.elems.drop d)).1).length ≤ _
    rw [relocate_fst, relocate_fst]
    simp only [List.length_append, List.length_take, List.length_drop,
      List.length_cons, List.length_nil]
    split
    · rename_i hz
      have h3 : v.elems.length = 0 := hz
      omega
    · rename_i hz
      have h3 : ¬ (v.elems.length = 0) := hz
      show _ ≤ v.elems.length * 2
      omega
  · rename_i hfull
    have h2 : ¬ (v.elems.length = v.cap) := hfull
    split
    · rename_i hnz
      have h3 : ¬ (v.elems.length = 0) := hnz
      show (List.set _ d (Elem.live a)).length ≤ v.cap
      rw [List.length_set, moveBackN_length, List.length_append, List.length_set]
      simp only [List.length_cons, List.length_nil]
      omega
    · rename_i hnz
      have h3 : v.elems.length = 0 := by
        by_contra hc
        exact hnz hc
      show [Elem.live a].length ≤ v.cap
      simp only [List.length_cons, List.length_nil]
      omega

/-- Claim C9: the invariant `Size() ≤ Capacity()` holds for a default-constructed
container and is preserved by every public operation: construction by size,
copy/move construction, copy/move assignment, `Swap`, `Reserve`, `Resize`,
`PushBack`/`EmplaceBack`, `Emplace`/`Insert`, `Erase`, and `PopBack`. -/
theorem C9_capacity_invariant (nm cc sm : Bool) (v w : Vector α) (n k d : Nat) (a x : α)
    (hv : Inv v) (hw : Inv w) :
    Inv (emptyVec : Vector α) ∧
    Inv (mkSized n x) ∧
    Inv (copyConstruct v) ∧
    Inv (moveConstruct v).1 ∧ Inv (moveConstruct v).2 ∧
    Inv (copyAssign v w sm) ∧
    Inv (moveAssign v w).1 ∧ Inv (moveAssign v w).2 ∧
    Inv (SwapV v w).1 ∧ Inv (SwapV v w).2 ∧
    Inv (Reserve nm cc v k).1 ∧
    Inv (Resize nm cc v n x) ∧
    Inv (PushBack nm cc v a) ∧
    Inv (EmplaceBack nm cc v a).1 ∧
    Inv (Emplace nm cc v d a).1 ∧
    Inv (Insert nm cc v d a).1 ∧
    Inv (Erase v d).1 ∧
    Inv (PopBack v) := by
  have hv' : v.elems.length ≤ v.cap := hv
  have hw' : w.elems.length ≤ w.cap := hw
  refine ⟨?_, ?_, ?_, hv, ?_, ?_, hw, hv, hw, hv, reserve_inv nm cc v k hv, ?_,
    emplaceBack_inv nm cc v a hv, emplaceBack_inv nm cc v a hv,
    emplace_inv nm cc v d a hv, emplace_inv nm cc v d a hv, ?_, ?_⟩
  · show (0 : Nat) ≤ 0
    exact Nat.le_refl 0
  · show (List.replicate n (Elem.live x)).length ≤ n
    rw [List.length_replicate]
  · exact Nat.le_refl _
  · show (0 : Nat) ≤ 0
    exact Nat.le_refl 0
  · unfold copyAssign
    split
    · exact hv
    · split
      · exact Nat.le_refl _
      · rename_i hle
        show w.elems.length ≤ v.cap
        have : ¬ (Size w > v.cap) := hle
        have : ¬ (w.elems.length > v.cap) := this
        omega
  · unfold Resize
    split
    · rename_i hgt
      have h2 : Size v < n := hgt
      have h3 : v.elems.length < n := h2
      show ((Reserve nm cc v n).1.elems ++ _).length ≤ (Reserve nm cc v n).1.cap
      rw [List.length_append, List.length_replicate]
      have hel : (Reserve nm cc v n).1.elems = v.elems := by
        unfold Reserve
        split
        · rfl
        · exact relocate_fst nm cc v.elems
      have hcap : n ≤ (Reserve nm cc v n).1.cap := by
        unfold Reserve
        split
        · rename_i hle
          exact hle
        · exact Nat.le_refl n
      rw [hel]
      have h4 : Size v = v.elems.length := rfl
      omega
    · split
      · rename_i hlt
        have h2 : n < Size v := hlt
        show (v.elems.take n).length ≤ v.cap
        rw [List.length_take]
        omega
      · exact hv
  · show (List.take (Size v - 1) (moveFwdN v.elems d (Size v - (d + 1)))).length ≤ v.cap
    rw [List.length_take, moveFwdN_length]
    have : Size v = v.elems.length := rfl
    omega
  · show (v.elems.take (Size v - 1)).length ≤ v.cap
    rw [List.length_take]
    have : Size v = v.elems.length := rfl
    omega

/-- Claim C9 witness: the invariant holds for concrete instances of every
operation applied to `[1]` with capacity `2` and `[2, 3]` with capacity
`3`. -/
theorem C9_capacity_invariant_witness :
    Inv (emptyVec : Vector Nat) ∧
    Inv (mkSized 4 (5 : Nat)) ∧
    Inv (copyConstruct (⟨[Elem.live 1], 2⟩ : Vector Nat)) ∧
    Inv (moveConstruct (⟨[Elem.live 1], 2⟩ : Vector Nat)).1 ∧
    Inv (moveConstruct (⟨[Elem.live 1], 2⟩ : Vector Nat)).2 ∧
    Inv (copyAssign (⟨[Elem.live 1], 2⟩ : Vector Nat) ⟨[Elem.live 2, Elem.live 3], 3⟩ false) ∧
    Inv (moveAssign (⟨[Elem.live 1], 2⟩ : Vector Nat) ⟨[Elem.live 2, Elem.live 3], 3⟩).1 ∧
    Inv (moveAssign (⟨[Elem.live 1], 2⟩ : Vector Nat) ⟨[Elem.live 2, Elem.live 3], 3⟩).2 ∧
    Inv (SwapV (⟨[Elem.live 1], 2⟩ : Vector Nat) ⟨[Elem.live 2, Elem.live 3], 3⟩).1 ∧
    Inv (SwapV (⟨[Elem.live 1], 2⟩ : Vector Nat) ⟨[Elem.live 2, Elem.live 3], 3⟩).2 ∧
    Inv (Reserve true true (⟨[Elem.live 1], 2⟩ : Vector Nat) 7).1 ∧
    Inv (Resize true true (⟨[Elem.live 1], 2⟩ : Vector Nat) 4 5) ∧
    Inv (PushBack true true (⟨[Elem.live 1], 2⟩ : Vector Nat) 9) ∧
    Inv (EmplaceBack true true (⟨[Elem.live 1], 2⟩ : Vector Nat) 9).1 ∧
    Inv (Emplace true true (⟨[Elem.live 1], 2⟩ : Vector Nat) 0 9).1 ∧
    Inv (Insert true true (⟨[Elem.live 1], 2⟩ : Vector Nat) 0 9).1 ∧
    Inv (Erase (⟨[Elem.live 1], 2⟩ : Vector Nat) 0).1 ∧
    Inv (PopBack (⟨[Elem.live 1], 2⟩ : Vector Nat)) :=
  C9_capacity_invariant true true false (⟨[Elem.live 1], 2⟩ : Vector Nat)
    (⟨[Elem.live 2, Elem.live 3], 3⟩ : Vector Nat) 4 7 0 9 5
    (by unfold Inv; decide) (by unfold Inv; decide)

end AdvVec
